import Mathlib

/-!
Verification of the planetSimulation physics core: a shallow embedding of
`Vector2`, `Planet`, `PhysicsEngine` and the fixed-step driver, over exact
real arithmetic, with theorems settling the frozen claims.
-/

/-- `Vector2`: 2D vector over the reals (the source wraps `glm::vec2`,
componentwise float arithmetic modelled exactly). -/
structure Vector2 where
  x : ℝ
  y : ℝ

namespace Vector2

@[ext] theorem ext2 {a b : Vector2} (hx : a.x = b.x) (hy : a.y = b.y) : a = b := by
  cases a; cases b; simp_all

instance : Zero Vector2 := ⟨⟨0, 0⟩⟩
instance : Add Vector2 := ⟨fun a b => ⟨a.x + b.x, a.y + b.y⟩⟩
instance : Neg Vector2 := ⟨fun a => ⟨-a.x, -a.y⟩⟩
instance : Sub Vector2 := ⟨fun a b => ⟨a.x - b.x, a.y - b.y⟩⟩

@[simp] theorem zero_x : (0 : Vector2).x = 0 := rfl
@[simp] theorem zero_y : (0 : Vector2).y = 0 := rfl
@[simp] theorem add_x (a b : Vector2) : (a + b).x = a.x + b.x := rfl
@[simp] theorem add_y (a b : Vector2) : (a + b).y = a.y + b.y := rfl
@[simp] theorem neg_x (a : Vector2) : (-a).x = -a.x := rfl
@[simp] theorem neg_y (a : Vector2) : (-a).y = -a.y := rfl
@[simp] theorem sub_x (a b : Vector2) : (a - b).x = a.x - b.x := rfl
@[simp] theorem sub_y (a b : Vector2) : (a - b).y = a.y - b.y := rfl

instance : AddCommGroup Vector2 where
  add_assoc a b c := by ext <;> simp [add_assoc]
  zero_add a := by ext <;> simp
  add_zero a := by ext <;> simp
  add_comm a b := by ext <;> simp [add_comm]
  neg_add_cancel a := by ext <;> simp
  sub_eq_add_neg a b := by ext <;> simp [sub_eq_add_neg]
  nsmul := nsmulRec
  zsmul := zsmulRec

end Vector2

noncomputable section

namespace Vector2

/-- Source operator*(double scalar): componentwise scaling. -/
def mulScalar (v : Vector2) (s : ℝ) : Vector2 := ⟨v.x * s, v.y * s⟩

/-- Source operator/(double scalar): componentwise division. -/
def divScalar (v : Vector2) (s : ℝ) : Vector2 := ⟨v.x / s, v.y / s⟩

/-- Source Vector2::length: sqrt(x*x + y*y). -/
def length (v : Vector2) : ℝ := Real.sqrt (v.x * v.x + v.y * v.y)

/-- Source Vector2::normalized: the zero vector when the length is zero,
otherwise the vector divided by its length. -/
def normalized (v : Vector2) : Vector2 :=
  if length v = 0 then ⟨0, 0⟩ else divScalar v (length v)

/-- Euclidean inner product (used by the spec-modelled collision resolver). -/
def dot (a b : Vector2) : ℝ := a.x * b.x + a.y * b.y

@[simp] theorem mulScalar_x (v : Vector2) (s : ℝ) : (v.mulScalar s).x = v.x * s := rfl
@[simp] theorem mulScalar_y (v : Vector2) (s : ℝ) : (v.mulScalar s).y = v.y * s := rfl
@[simp] theorem divScalar_x (v : Vector2) (s : ℝ) : (v.divScalar s).x = v.x / s := rfl
@[simp] theorem divScalar_y (v : Vector2) (s : ℝ) : (v.divScalar s).y = v.y / s := rfl

theorem length_nonneg (v : Vector2) : 0 ≤ v.length := Real.sqrt_nonneg _

theorem length_neg (v : Vector2) : (-v).length = v.length := by
  unfold length
  simp only [neg_x, neg_y]
  ring_nf

theorem mul_self_length (v : Vector2) : v.length * v.length = v.x * v.x + v.y * v.y :=
  Real.mul_self_sqrt (add_nonneg (mul_self_nonneg _) (mul_self_nonneg _))

theorem normalized_neg (v : Vector2) : (-v).normalized = -v.normalized := by
  unfold normalized
  rw [length_neg]
  by_cases h : v.length = 0
  · rw [if_pos h, if_pos h]; ext <;> simp
  · rw [if_neg h, if_neg h]; ext <;> simp [divScalar, neg_div]

theorem neg_mulScalar (v : Vector2) (s : ℝ) : (-v).mulScalar s = -(v.mulScalar s) := by
  ext <;> simp [mulScalar]

end Vector2

/-- The Planet record: position, velocity, per-step force accumulator, mass,
radius, color and the bounded trail of past positions. -/
structure Planet where
  p : Vector2
  v : Vector2
  forceAccumulator : Vector2
  mass : ℝ
  radius : ℝ
  color : ℝ × ℝ × ℝ
  trail : List Vector2

namespace Planet

/-- Source Planet::maxTrailLength = 1000. -/
def maxTrailLength : ℕ := 1000

/-- Source Planet::clearForces: reset the force accumulator to zero. -/
def clearForces (b : Planet) : Planet := { b with forceAccumulator := 0 }

/-- Source Planet::applyForce: accumulate the force; the dt argument is
unused there ("dt is not used here, integration happens separately"). -/
def applyForce (b : Planet) (force : Vector2) (_dt : ℝ) : Planet :=
  { b with forceAccumulator := b.forceAccumulator + force }

/-- Source Planet::integrateVelocity: v += (F / mass) * dt. -/
def integrateVelocity (b : Planet) (dt : ℝ) : Planet :=
  { b with v := b.v + (b.forceAccumulator.divScalar b.mass).mulScalar dt }

/-- Source Planet::recordPosition: pop the front (oldest) sample when the
trail is at capacity, then push the current position at the back. -/
def recordPosition (b : Planet) : Planet :=
  { b with trail := (if maxTrailLength ≤ b.trail.length then b.trail.tail else b.trail) ++ [b.p] }

/-- Source Planet::clearTrail. -/
def clearTrail (b : Planet) : Planet := { b with trail := [] }

end Planet

namespace PhysicsEngine

/-- One per-body loop iteration: replace the body at index i by g of it. -/
def updAt (g : Planet → Planet) (bs : ℕ → Planet) (i : ℕ) : ℕ → Planet :=
  Function.update bs i (g (bs i))

/-- A loop over the bodies at the indices of L, applying g to each. -/
def loopOver (g : Planet → Planet) (L : List ℕ) (bs : ℕ → Planet) : ℕ → Planet :=
  L.foldl (updAt g) bs

/-- The gravitational force the source computes on body a from body b:
r = b.p - a.p, denom = |r|^2 + softening^2; skip (zero) when denom = 0,
else the normalized direction scaled by G * m_a * m_b / denom. -/
def pairForce (G eps : ℝ) (a b : Planet) : Vector2 :=
  let r := b.p - a.p
  let dist := r.length
  let denom := dist * dist + eps * eps
  if denom = 0 then 0 else r.normalized.mulScalar (G * a.mass * b.mass / denom)

/-- One inner-loop iteration of computeForces on the pair q = (i, j):
accumulate +F on body i and -F on body j. -/
def applyPair (G eps dt : ℝ) (bs : ℕ → Planet) (q : ℕ × ℕ) : ℕ → Planet :=
  let f := pairForce G eps (bs q.1) (bs q.2)
  let bs1 := Function.update bs q.1 ((bs q.1).applyForce f dt)
  Function.update bs1 q.2 ((bs1 q.2).applyForce (-f) dt)

/-- The index pairs (i, j), i < j < n, in the order the nested loops of
computeForces visit them. -/
def pairList (n : ℕ) : List (ℕ × ℕ) :=
  (List.range n).flatMap fun i =>
    (List.range n).filterMap fun j => if i < j then some (i, j) else none

/-- The force-accumulation phase of PhysicsEngine::computeForces: clear every
accumulator, then run the nested pair loop. -/
def forcePass (G eps dt : ℝ) (n : ℕ) (bs : ℕ → Planet) : ℕ → Planet :=
  (pairList n).foldl (applyPair G eps dt) (loopOver Planet.clearForces (List.range n) bs)

/-- PhysicsEngine::computeForces with the per-body loops visiting indices in
the order L: clear accumulators, accumulate all pair forces, then apply the
accumulated forces to the velocities. -/
def computeForcesOrd (G eps dt : ℝ) (L : List ℕ) (n : ℕ) (bs : ℕ → Planet) : ℕ → Planet :=
  loopOver (fun b => b.integrateVelocity dt) L
    ((pairList n).foldl (applyPair G eps dt) (loopOver Planet.clearForces L bs))

/-- Source PhysicsEngine::computeForces (per-body loops in index order). -/
def computeForces (G eps dt : ℝ) (n : ℕ) (bs : ℕ → Planet) : ℕ → Planet :=
  computeForcesOrd G eps dt (List.range n) n bs

/-- One body of the position loop of PhysicsEngine::integrate:
p += v * dt, then recordPosition. -/
def moveBody (dt : ℝ) (b : Planet) : Planet :=
  ({ b with p := b.p + b.v.mulScalar dt }).recordPosition

/-- PhysicsEngine::integrate with the body loop visiting indices in order L. -/
def integrateOrd (dt : ℝ) (L : List ℕ) (bs : ℕ → Planet) : ℕ → Planet :=
  loopOver (moveBody dt) L bs

/-- Source PhysicsEngine::integrate. -/
def integrate (dt : ℝ) (n : ℕ) (bs : ℕ → Planet) : ℕ → Planet :=
  integrateOrd dt (List.range n) bs

end PhysicsEngine

/-- Simulation::update: physics.computeForces(deltaTime); physics.integrate(deltaTime),
with the per-body loops visiting indices in order L. -/
def updateOrd (G eps dt : ℝ) (L : List ℕ) (n : ℕ) (bs : ℕ → Planet) : ℕ → Planet :=
  PhysicsEngine.integrateOrd dt L (PhysicsEngine.computeForcesOrd G eps dt L n bs)

/-- Source Simulation::update: one force + integration pass. -/
def simUpdate (G eps dt : ℝ) (n : ℕ) (bs : ℕ → Planet) : ℕ → Planet :=
  updateOrd G eps dt (List.range n) n bs

section ListHelpers

variable {M : Type} [AddCommMonoid M] {α : Type}

theorem listRangeMapSum (f : ℕ → M) (n : ℕ) :
    ((List.range n).map f).sum = ∑ i ∈ Finset.range n, f i := by
  induction n with
  | zero => simp
  | succ n ih => rw [List.range_succ n]; simp [Finset.sum_range_succ, ih]

theorem filterMapIfMapSum (l : List ℕ) (p : ℕ → Prop) [DecidablePred p]
    (q : ℕ → α) (g : α → M) :
    ((l.filterMap fun j => if p j then some (q j) else none).map g).sum
      = (l.map fun j => if p j then g (q j) else 0).sum := by
  induction l with
  | nil => rfl
  | cons a l ih => by_cases h : p a <;> simp [h, ih]

theorem flattenMapSum (L : List (List α)) (g : α → M) :
    (L.flatten.map g).sum = (L.map fun l => (l.map g).sum).sum := by
  induction L with
  | nil => rfl
  | cons l L ih => simp [ih, Function.comp_def]

end ListHelpers

namespace PhysicsEngine

/-- Pointwise description of a per-body loop over a duplicate-free index
list: index k is transformed exactly once when k is in the list. -/
theorem loopOver_apply (g : Planet → Planet) :
    ∀ (L : List ℕ), L.Nodup → ∀ (bs : ℕ → Planet) (k : ℕ),
      loopOver g L bs k = if k ∈ L then g (bs k) else bs k := by
  intro L
  induction L with
  | nil => intro _ bs k; simp [loopOver]
  | cons i L ih =>
    intro hL bs k
    have hiL : i ∉ L := (List.nodup_cons.mp hL).1
    have hLnd : L.Nodup := (List.nodup_cons.mp hL).2
    have step : loopOver g (i :: L) bs = loopOver g L (updAt g bs i) := rfl
    rw [step, ih hLnd]
    by_cases hkL : k ∈ L
    · have hki : k ≠ i := fun h => hiL (h ▸ hkL)
      simp [hkL, updAt, Function.update_apply, hki, List.mem_cons]
    · by_cases hki : k = i
      · subst hki
        simp [hkL, updAt, Function.update_apply, List.mem_cons]
      · simp [hkL, updAt, Function.update_apply, hki, List.mem_cons]

theorem pairForce_neg (G eps : ℝ) (a b : Planet) :
    pairForce G eps b a = -(pairForce G eps a b) := by
  simp only [pairForce]
  have hr : a.p - b.p = -(b.p - a.p) := by ext <;> simp
  rw [hr, Vector2.length_neg]
  by_cases h : (b.p - a.p).length * (b.p - a.p).length + eps * eps = 0
  · rw [if_pos h, if_pos h]; simp
  · rw [if_neg h, if_neg h, Vector2.normalized_neg, Vector2.neg_mulScalar]
    have hm : G * b.mass * a.mass = G * a.mass * b.mass := by ring
    rw [hm]

theorem pairForce_congr (G eps : ℝ) {a a' b b' : Planet}
    (hap : a.p = a'.p) (ham : a.mass = a'.mass)
    (hbp : b.p = b'.p) (hbm : b.mass = b'.mass) :
    pairForce G eps a b = pairForce G eps a' b' := by
  simp only [pairForce]
  rw [hap, ham, hbp, hbm]

/-- The contribution of processing pair q to the accumulator of body k. -/
def pairContrib (G eps : ℝ) (bs : ℕ → Planet) (q : ℕ × ℕ) (k : ℕ) : Vector2 :=
  (if q.1 = k then pairForce G eps (bs q.1) (bs q.2) else 0)
    + (if q.2 = k then -(pairForce G eps (bs q.1) (bs q.2)) else 0)

theorem applyPair_p (G eps dt : ℝ) (bs : ℕ → Planet) (q : ℕ × ℕ) (k : ℕ) :
    (applyPair G eps dt bs q k).p = (bs k).p := by
  simp only [applyPair, Planet.applyForce, Function.update_apply]
  split_ifs <;> simp_all

theorem applyPair_v (G eps dt : ℝ) (bs : ℕ → Planet) (q : ℕ × ℕ) (k : ℕ) :
    (applyPair G eps dt bs q k).v = (bs k).v := by
  simp only [applyPair, Planet.applyForce, Function.update_apply]
  split_ifs <;> simp_all

theorem applyPair_mass (G eps dt : ℝ) (bs : ℕ → Planet) (q : ℕ × ℕ) (k : ℕ) :
    (applyPair G eps dt bs q k).mass = (bs k).mass := by
  simp only [applyPair, Planet.applyForce, Function.update_apply]
  split_ifs <;> simp_all

theorem applyPair_radius (G eps dt : ℝ) (bs : ℕ → Planet) (q : ℕ × ℕ) (k : ℕ) :
    (applyPair G eps dt bs q k).radius = (bs k).radius := by
  simp only [applyPair, Planet.applyForce, Function.update_apply]
  split_ifs <;> simp_all

theorem applyPair_trail (G eps dt : ℝ) (bs : ℕ → Planet) (q : ℕ × ℕ) (k : ℕ) :
    (applyPair G eps dt bs q k).trail = (bs k).trail := by
  simp only [applyPair, Planet.applyForce, Function.update_apply]
  split_ifs <;> simp_all

theorem applyPair_force (G eps dt : ℝ) (bs : ℕ → Planet) (q : ℕ × ℕ)
    (hne : q.1 ≠ q.2) (k : ℕ) :
    (applyPair G eps dt bs q k).forceAccumulator
      = (bs k).forceAccumulator + pairContrib G eps bs q k := by
  simp only [applyPair, Planet.applyForce, Function.update_apply, pairContrib]
  rcases eq_or_ne k q.2 with h2 | h2
  · subst h2
    simp [hne, Ne.symm hne]
  · rcases eq_or_ne k q.1 with h1 | h1
    · subst h1
      simp [hne, Ne.symm hne, h2]
    · simp [Ne.symm h1, Ne.symm h2, h1, h2]

theorem foldl_applyPair (G eps dt : ℝ) (bs0 : ℕ → Planet) :
    ∀ (P : List (ℕ × ℕ)) (bs : ℕ → Planet),
      (∀ q ∈ P, q.1 ≠ q.2) →
      (∀ m, (bs m).p = (bs0 m).p) → (∀ m, (bs m).mass = (bs0 m).mass) →
      ∀ k,
        ((P.foldl (applyPair G eps dt) bs) k).p = (bs k).p
        ∧ ((P.foldl (applyPair G eps dt) bs) k).v = (bs k).v
        ∧ ((P.foldl (applyPair G eps dt) bs) k).mass = (bs k).mass
        ∧ ((P.foldl (applyPair G eps dt) bs) k).radius = (bs k).radius
        ∧ ((P.foldl (applyPair G eps dt) bs) k).trail = (bs k).trail
        ∧ ((P.foldl (applyPair G eps dt) bs) k).forceAccumulator
            = (bs k).forceAccumulator + (P.map fun q => pairContrib G eps bs0 q k).sum := by
  intro P
  induction P with
  | nil => intro bs _ _ _ k; simp
  | cons q P ih =>
    intro bs hP hp hm k
    have hq : q.1 ≠ q.2 := hP q (List.mem_cons_self q P)
    have hP1 : ∀ r ∈ P, r.1 ≠ r.2 := fun r hr => hP r (List.mem_cons_of_mem q hr)
    have hstep : (q :: P).foldl (applyPair G eps dt) bs
        = P.foldl (applyPair G eps dt) (applyPair G eps dt bs q) := rfl
    have hp1 : ∀ m, (applyPair G eps dt bs q m).p = (bs0 m).p := fun m => by
      rw [applyPair_p]; exact hp m
    have hm1 : ∀ m, (applyPair G eps dt bs q m).mass = (bs0 m).mass := fun m => by
      rw [applyPair_mass]; exact hm m
    obtain ⟨ihp, ihv, ihm, ihr, iht, ihf⟩ := ih (applyPair G eps dt bs q) hP1 hp1 hm1 k
    rw [hstep]
    refine ⟨by rw [ihp, applyPair_p], by rw [ihv, applyPair_v], by rw [ihm, applyPair_mass],
      by rw [ihr, applyPair_radius], by rw [iht, applyPair_trail], ?_⟩
    rw [ihf, applyPair_force G eps dt bs q hq]
    have hcq : pairContrib G eps bs q k = pairContrib G eps bs0 q k := by
      unfold pairContrib
      rw [pairForce_congr G eps (hp q.1) (hm q.1) (hp q.2) (hm q.2)]
    rw [hcq, List.map_cons, List.sum_cons]
    abel

theorem pairList_lt {n : ℕ} {q : ℕ × ℕ} (hq : q ∈ pairList n) : q.1 < q.2 ∧ q.2 < n := by
  simp only [pairList, List.mem_flatMap, List.mem_filterMap, List.mem_range] at hq
  obtain ⟨i, _, j, hj, hij⟩ := hq
  by_cases h : i < j
  · rw [if_pos h] at hij
    injection hij with hq2
    subst hq2
    exact ⟨h, hj⟩
  · rw [if_neg h] at hij
    exact absurd hij (by simp)

theorem pairList_map_sum {M : Type} [AddCommMonoid M] (n : ℕ) (g : ℕ × ℕ → M) :
    ((pairList n).map g).sum
      = ∑ i ∈ Finset.range n, ∑ j ∈ Finset.range n, if i < j then g (i, j) else 0 := by
  have h1 : pairList n
      = ((List.range n).map fun i =>
          (List.range n).filterMap fun j => if i < j then some (i, j) else none).flatten := rfl
  rw [h1, flattenMapSum, List.map_map, listRangeMapSum]
  apply Finset.sum_congr rfl
  intro i _
  have h2 : (((List.range n).filterMap fun j => if i < j then some (i, j) else none).map g).sum
      = ((List.range n).map fun j => if i < j then g (i, j) else 0).sum :=
    filterMapIfMapSum (List.range n) (fun j => i < j) (fun j => (i, j)) g
  simpa [listRangeMapSum] using h2

/-- Evaluating the per-body contribution sum: for an antisymmetric pair force,
the once-per-unordered-pair double loop gives body k the net force
sum over all other bodies j of F k j. -/
theorem offdiag_contrib_sum {n k : ℕ} (hk : k < n) (F : ℕ → ℕ → Vector2)
    (hF : ∀ i j, F j i = -(F i j)) :
    (∑ i ∈ Finset.range n, ∑ j ∈ Finset.range n,
        if i < j then ((if i = k then F i j else 0) + (if j = k then -(F i j) else 0)) else 0)
      = ∑ j ∈ Finset.range n, if j = k then 0 else F k j := by
  have hsplit : ∀ i j : ℕ,
      (if i < j then ((if i = k then F i j else 0) + (if j = k then -(F i j) else 0)) else 0)
        = (if i = k then (if i < j then F i j else 0) else 0)
          + (if j = k then (if i < j then -(F i j) else 0) else 0) := by
    intro i j
    by_cases h1 : i < j <;> by_cases h2 : i = k <;> by_cases h3 : j = k <;> simp [h1, h2, h3]
  have hkr : k ∈ Finset.range n := Finset.mem_range.mpr hk
  calc (∑ i ∈ Finset.range n, ∑ j ∈ Finset.range n,
        if i < j then ((if i = k then F i j else 0) + (if j = k then -(F i j) else 0)) else 0)
      = ∑ i ∈ Finset.range n, ∑ j ∈ Finset.range n,
          ((if i = k then (if i < j then F i j else 0) else 0)
            + (if j = k then (if i < j then -(F i j) else 0) else 0)) := by
        apply Finset.sum_congr rfl; intro i _
        apply Finset.sum_congr rfl; intro j _
        exact hsplit i j
    _ = (∑ i ∈ Finset.range n, ∑ j ∈ Finset.range n,
          (if i = k then (if i < j then F i j else 0) else 0))
        + ∑ i ∈ Finset.range n, ∑ j ∈ Finset.range n,
          (if j = k then (if i < j then -(F i j) else 0) else 0) := by
        rw [← Finset.sum_add_distrib]
        apply Finset.sum_congr rfl; intro i _
        rw [← Finset.sum_add_distrib]
    _ = (∑ j ∈ Finset.range n, if k < j then F k j else 0)
        + ∑ i ∈ Finset.range n, if i < k then -(F i k) else 0 := by
        congr 1
        · have : ∀ i ∈ Finset.range n,
              (∑ j ∈ Finset.range n, (if i = k then (if i < j then F i j else 0) else 0))
                = if i = k then (∑ j ∈ Finset.range n, if i < j then F i j else 0) else 0 := by
            intro i _
            by_cases h : i = k <;> simp [h]
          rw [Finset.sum_congr rfl this, Finset.sum_ite_eq' (Finset.range n) k, if_pos hkr]
        · rw [Finset.sum_comm]
          have : ∀ j ∈ Finset.range n,
              (∑ i ∈ Finset.range n, (if j = k then (if i < j then -(F i j) else 0) else 0))
                = if j = k then (∑ i ∈ Finset.range n, if i < j then -(F i j) else 0) else 0 := by
            intro j _
            by_cases h : j = k <;> simp [h]
          rw [Finset.sum_congr rfl this, Finset.sum_ite_eq' (Finset.range n) k, if_pos hkr]
    _ = ∑ j ∈ Finset.range n, ((if k < j then F k j else 0) + (if j < k then F k j else 0)) := by
        rw [Finset.sum_add_distrib]
        congr 1
        apply Finset.sum_congr rfl; intro i _
        by_cases h : i < k
        · rw [if_pos h, if_pos h, ← hF i k]
        · rw [if_neg h, if_neg h]
    _ = ∑ j ∈ Finset.range n, if j = k then 0 else F k j := by
        apply Finset.sum_congr rfl; intro j _
        rcases lt_trichotomy j k with h | h | h
        · simp [h, Nat.lt_asymm h, ne_of_lt h]
        · simp [h]
        · simp [h, Nat.lt_asymm h, ne_of_gt h]

theorem clearLoop_p (n : ℕ) (bs : ℕ → Planet) (m : ℕ) :
    (loopOver Planet.clearForces (List.range n) bs m).p = (bs m).p := by
  rw [loopOver_apply _ _ (List.nodup_range n)]
  by_cases h : m ∈ List.range n <;> simp [h, Planet.clearForces]

theorem clearLoop_v (n : ℕ) (bs : ℕ → Planet) (m : ℕ) :
    (loopOver Planet.clearForces (List.range n) bs m).v = (bs m).v := by
  rw [loopOver_apply _ _ (List.nodup_range n)]
  by_cases h : m ∈ List.range n <;> simp [h, Planet.clearForces]

theorem clearLoop_mass (n : ℕ) (bs : ℕ → Planet) (m : ℕ) :
    (loopOver Planet.clearForces (List.range n) bs m).mass = (bs m).mass := by
  rw [loopOver_apply _ _ (List.nodup_range n)]
  by_cases h : m ∈ List.range n <;> simp [h, Planet.clearForces]

theorem clearLoop_force {n m : ℕ} (hm : m < n) (bs : ℕ → Planet) :
    (loopOver Planet.clearForces (List.range n) bs m).forceAccumulator = 0 := by
  rw [loopOver_apply _ _ (List.nodup_range n), if_pos (List.mem_range.mpr hm)]
  rfl

theorem velLoop_force (dt : ℝ) {L : List ℕ} (hL : L.Nodup) (bs : ℕ → Planet) (k : ℕ) :
    (loopOver (fun b => b.integrateVelocity dt) L bs k).forceAccumulator
      = (bs k).forceAccumulator := by
  rw [loopOver_apply _ _ hL]
  by_cases h : k ∈ L <;> simp [h, Planet.integrateVelocity]

theorem velLoop_p (dt : ℝ) {L : List ℕ} (hL : L.Nodup) (bs : ℕ → Planet) (k : ℕ) :
    (loopOver (fun b => b.integrateVelocity dt) L bs k).p = (bs k).p := by
  rw [loopOver_apply _ _ hL]
  by_cases h : k ∈ L <;> simp [h, Planet.integrateVelocity]

theorem velLoop_mass (dt : ℝ) {L : List ℕ} (hL : L.Nodup) (bs : ℕ → Planet) (k : ℕ) :
    (loopOver (fun b => b.integrateVelocity dt) L bs k).mass = (bs k).mass := by
  rw [loopOver_apply _ _ hL]
  by_cases h : k ∈ L <;> simp [h, Planet.integrateVelocity]

/-- The net force computeForces accumulates on body k: the sum, over every
other body j, of the softened pairwise gravitational force. -/
theorem computeForces_net_force (G eps dt : ℝ) (n : ℕ) (bs : ℕ → Planet)
    {k : ℕ} (hk : k < n) :
    (computeForces G eps dt n bs k).forceAccumulator
      = ∑ j ∈ Finset.range n, if j = k then 0 else pairForce G eps (bs k) (bs j) := by
  have hnd := List.nodup_range n
  set C := loopOver Planet.clearForces (List.range n) bs with hC
  have hfold := foldl_applyPair G eps dt C (pairList n) C
    (fun q hq => Nat.ne_of_lt (pairList_lt hq).1) (fun _ => rfl) (fun _ => rfl) k
  have hcf : (computeForces G eps dt n bs k).forceAccumulator
      = ((pairList n).foldl (applyPair G eps dt) C k).forceAccumulator := by
    simp only [computeForces, computeForcesOrd]
    rw [velLoop_force dt hnd]
  rw [hcf, hfold.2.2.2.2.2, clearLoop_force hk, zero_add]
  have hmap : ((pairList n).map fun q => pairContrib G eps C q k).sum
      = ∑ i ∈ Finset.range n, ∑ j ∈ Finset.range n,
          if i < j then pairContrib G eps C (i, j) k else 0 :=
    pairList_map_sum n (fun q => pairContrib G eps C q k)
  rw [hmap]
  have hoff := offdiag_contrib_sum hk (fun i j => pairForce G eps (C i) (C j))
    (fun i j => pairForce_neg G eps (C i) (C j))
  simp only [pairContrib] at hoff ⊢
  rw [hoff]
  apply Finset.sum_congr rfl
  intro j _
  by_cases h : j = k
  · rw [if_pos h, if_pos h]
  · rw [if_neg h, if_neg h,
      pairForce_congr G eps (clearLoop_p n bs k) (clearLoop_mass n bs k)
        (clearLoop_p n bs j) (clearLoop_mass n bs j)]

end PhysicsEngine

/-- A sample body used by the concrete witnesses below. -/
def samplePlanet : Planet := ⟨0, 0, 0, 1, 1, ⟨1, 1, 1⟩, []⟩

/-- C1: one call to PhysicsEngine::computeForces processes every unordered
pair of distinct bodies exactly once, so each body k accumulates the sum,
over all other bodies j, of the force of magnitude G*m_k*m_j / (|r|^2 + eps^2)
applied along the normalized direction r = pos_j - pos_k; the force applied
to the partner is exactly opposite, and a pair whose softened squared
distance is exactly zero is skipped (contributes nothing), so no division by
zero occurs. -/
theorem computeForces_pairwise_gravity (G eps dt : ℝ) (n : ℕ) (bs : ℕ → Planet)
    (k : ℕ) (hk : k < n) :
    (PhysicsEngine.computeForces G eps dt n bs k).forceAccumulator
        = (∑ j ∈ Finset.range n,
            if j = k then 0 else PhysicsEngine.pairForce G eps (bs k) (bs j))
      ∧ (∀ a b : Planet,
          PhysicsEngine.pairForce G eps b a = -(PhysicsEngine.pairForce G eps a b))
      ∧ (∀ a b : Planet,
          (b.p - a.p).length * (b.p - a.p).length + eps * eps = 0 →
            PhysicsEngine.pairForce G eps a b = 0) :=
  ⟨PhysicsEngine.computeForces_net_force G eps dt n bs hk,
   fun a b => PhysicsEngine.pairForce_neg G eps a b,
   fun a b h => by simp only [PhysicsEngine.pairForce]; rw [if_pos h]⟩

/-- A per-body loop visits each index of a permutation of range n once, so
its result does not depend on the visiting order. -/
theorem loopOver_perm (g : Planet → Planet) {L : List ℕ} {n : ℕ}
    (hL : L.Perm (List.range n)) (bs : ℕ → Planet) :
    PhysicsEngine.loopOver g L bs = PhysicsEngine.loopOver g (List.range n) bs := by
  have hnd : L.Nodup := (hL.nodup_iff).mpr (List.nodup_range n)
  funext k
  rw [PhysicsEngine.loopOver_apply g L hnd, PhysicsEngine.loopOver_apply g _ (List.nodup_range n)]
  by_cases h : k ∈ L
  · rw [if_pos h, if_pos (hL.mem_iff.mp h)]
  · rw [if_neg h, if_neg (fun hc => h (hL.mem_iff.mpr hc))]

/-- One step with per-body loops in any order L that is a permutation of the
index range: body k ends up as the semi-implicit Euler image of its
force-finalized state. -/
theorem updateOrd_apply (G eps dt : ℝ) (n : ℕ) (bs : ℕ → Planet) {L : List ℕ}
    (hL : L.Perm (List.range n)) {k : ℕ} (hk : k < n) :
    updateOrd G eps dt L n bs k
      = PhysicsEngine.moveBody dt
          ((PhysicsEngine.forcePass G eps dt n bs k).integrateVelocity dt) := by
  have hnd : L.Nodup := (hL.nodup_iff).mpr (List.nodup_range n)
  have hkL : k ∈ L := hL.mem_iff.mpr (List.mem_range.mpr hk)
  have hclear : PhysicsEngine.loopOver Planet.clearForces L bs
      = PhysicsEngine.loopOver Planet.clearForces (List.range n) bs := loopOver_perm _ hL bs
  have hcf : PhysicsEngine.computeForcesOrd G eps dt L n bs
      = PhysicsEngine.loopOver (fun b => b.integrateVelocity dt) L
          (PhysicsEngine.forcePass G eps dt n bs) := by
    simp only [PhysicsEngine.computeForcesOrd, PhysicsEngine.forcePass, hclear]
  simp only [updateOrd, PhysicsEngine.integrateOrd, hcf]
  rw [PhysicsEngine.loopOver_apply _ L hnd, if_pos hkL,
    PhysicsEngine.loopOver_apply _ L hnd, if_pos hkL]

/-- C2: one simulation step (Simulation::update) updates every body present
at the start exactly once by semi-implicit Euler: the velocity is advanced
first, from the already-finalized accumulated force (integrateVelocity),
then the position is advanced using the already-updated velocity (moveBody);
the result is the same for every visiting order L of the per-body loops, in
particular for the source's index order (simUpdate). -/
theorem update_semi_implicit_euler (G eps dt : ℝ) (n : ℕ) (bs : ℕ → Planet)
    (L : List ℕ) (hL : L.Perm (List.range n)) (k : ℕ) (hk : k < n) :
    updateOrd G eps dt L n bs k
        = PhysicsEngine.moveBody dt
            ((PhysicsEngine.forcePass G eps dt n bs k).integrateVelocity dt)
      ∧ simUpdate G eps dt n bs k = updateOrd G eps dt L n bs k := by
  refine ⟨updateOrd_apply G eps dt n bs hL hk, ?_⟩
  rw [updateOrd_apply G eps dt n bs hL hk]
  exact updateOrd_apply G eps dt n bs (List.Perm.refl (List.range n)) hk

/-- Witness for C2 at a concrete input (two bodies, loops in index order). -/
theorem update_semi_implicit_euler_witness :
    updateOrd 1 0 1 (List.range 2) 2 (fun _ => samplePlanet) 0
        = PhysicsEngine.moveBody 1
            ((PhysicsEngine.forcePass 1 0 1 2 (fun _ => samplePlanet) 0).integrateVelocity 1)
      ∧ simUpdate 1 0 1 2 (fun _ => samplePlanet) 0
          = updateOrd 1 0 1 (List.range 2) 2 (fun _ => samplePlanet) 0 :=
  update_semi_implicit_euler 1 0 1 2 (fun _ => samplePlanet) (List.range 2)
    (List.Perm.refl (List.range 2)) 0 (by decide)

theorem sumFinsetMapSum {M : Type} [AddCommMonoid M] {ι α : Type} (s : Finset ι)
    (P : List α) (c : α → ι → M) :
    ∑ k ∈ s, (P.map fun q => c q k).sum = (P.map fun q => ∑ k ∈ s, c q k).sum := by
  induction P with
  | nil => simp
  | cons q P ih => simp [Finset.sum_add_distrib, ih]

/-- Scaling by a fixed scalar is additive on vectors. -/
def mulScalarHom (s : ℝ) : Vector2 →+ Vector2 where
  toFun v := v.mulScalar s
  map_zero' := by ext <;> simp
  map_add' a b := by ext <;> simp [add_mul]

/-- Momentum m * v of one body. -/
def momentum (b : Planet) : Vector2 := b.v.mulScalar b.mass

/-- Total momentum of the first n bodies. -/
def totalMomentum (n : ℕ) (bs : ℕ → Planet) : Vector2 :=
  ∑ k ∈ Finset.range n, momentum (bs k)

theorem moveBody_v (dt : ℝ) (b : Planet) : (PhysicsEngine.moveBody dt b).v = b.v := rfl

theorem moveBody_mass (dt : ℝ) (b : Planet) : (PhysicsEngine.moveBody dt b).mass = b.mass := rfl

theorem forcePass_v (G eps dt : ℝ) (n : ℕ) (bs : ℕ → Planet) (k : ℕ) :
    (PhysicsEngine.forcePass G eps dt n bs k).v = (bs k).v := by
  have h := (PhysicsEngine.foldl_applyPair G eps dt
    (PhysicsEngine.loopOver Planet.clearForces (List.range n) bs) (PhysicsEngine.pairList n)
    (PhysicsEngine.loopOver Planet.clearForces (List.range n) bs)
    (fun q hq => Nat.ne_of_lt (PhysicsEngine.pairList_lt hq).1)
    (fun _ => rfl) (fun _ => rfl) k).2.1
  rw [PhysicsEngine.forcePass, h, PhysicsEngine.clearLoop_v]

theorem forcePass_mass (G eps dt : ℝ) (n : ℕ) (bs : ℕ → Planet) (k : ℕ) :
    (PhysicsEngine.forcePass G eps dt n bs k).mass = (bs k).mass := by
  have h := (PhysicsEngine.foldl_applyPair G eps dt
    (PhysicsEngine.loopOver Planet.clearForces (List.range n) bs) (PhysicsEngine.pairList n)
    (PhysicsEngine.loopOver Planet.clearForces (List.range n) bs)
    (fun q hq => Nat.ne_of_lt (PhysicsEngine.pairList_lt hq).1)
    (fun _ => rfl) (fun _ => rfl) k).2.2.1
  rw [PhysicsEngine.forcePass, h, PhysicsEngine.clearLoop_mass]

/-- The internal forces of one pass cancel: each pair adds equal-and-opposite
contributions within the same step, so the accumulated forces sum to zero. -/
theorem forcePass_total_force (G eps dt : ℝ) (n : ℕ) (bs : ℕ → Planet) :
    ∑ k ∈ Finset.range n, (PhysicsEngine.forcePass G eps dt n bs k).forceAccumulator = 0 := by
  set C := PhysicsEngine.loopOver Planet.clearForces (List.range n) bs with hC
  have hf : ∀ k ∈ Finset.range n,
      (PhysicsEngine.forcePass G eps dt n bs k).forceAccumulator
        = ((PhysicsEngine.pairList n).map fun q => PhysicsEngine.pairContrib G eps C q k).sum := by
    intro k hk
    have h := (PhysicsEngine.foldl_applyPair G eps dt C (PhysicsEngine.pairList n) C
      (fun q hq => Nat.ne_of_lt (PhysicsEngine.pairList_lt hq).1)
      (fun _ => rfl) (fun _ => rfl) k).2.2.2.2.2
    rw [PhysicsEngine.forcePass, ← hC, h,
      PhysicsEngine.clearLoop_force (List.mem_range.mp hk), zero_add]
  rw [Finset.sum_congr rfl hf, sumFinsetMapSum]
  apply List.sum_eq_zero
  intro x hx
  obtain ⟨q, hq, hqx⟩ := List.mem_map.mp hx
  obtain ⟨h12, h2n⟩ := PhysicsEngine.pairList_lt hq
  have h1n : q.1 < n := lt_trans h12 h2n
  rw [← hqx]
  simp only [PhysicsEngine.pairContrib]
  rw [Finset.sum_add_distrib, Finset.sum_ite_eq (Finset.range n) q.1,
    Finset.sum_ite_eq (Finset.range n) q.2,
    if_pos (Finset.mem_range.mpr h1n), if_pos (Finset.mem_range.mpr h2n)]
  simp

theorem momentum_step (G eps dt : ℝ) (n : ℕ) (bs : ℕ → Planet) {k : ℕ}
    (hk : k < n) (hm : (bs k).mass ≠ 0) :
    momentum (simUpdate G eps dt n bs k)
      = momentum (bs k)
        + (PhysicsEngine.forcePass G eps dt n bs k).forceAccumulator.mulScalar dt := by
  rw [show simUpdate G eps dt n bs k = updateOrd G eps dt (List.range n) n bs k from rfl,
    updateOrd_apply G eps dt n bs (List.Perm.refl (List.range n)) hk]
  unfold momentum
  rw [moveBody_v, moveBody_mass]
  simp only [Planet.integrateVelocity]
  rw [forcePass_v, forcePass_mass]
  ext <;> simp [Vector2.mulScalar, Vector2.divScalar] <;> field_simp

theorem totalMomentum_step (G eps dt : ℝ) (n : ℕ) (bs : ℕ → Planet)
    (hmass : ∀ k, k < n → (bs k).mass ≠ 0) :
    totalMomentum n (simUpdate G eps dt n bs) = totalMomentum n bs := by
  unfold totalMomentum
  have hstep : ∀ k ∈ Finset.range n,
      momentum (simUpdate G eps dt n bs k)
        = momentum (bs k)
          + (PhysicsEngine.forcePass G eps dt n bs k).forceAccumulator.mulScalar dt := by
    intro k hk
    exact momentum_step G eps dt n bs (Finset.mem_range.mp hk)
      (hmass k (Finset.mem_range.mp hk))
  rw [Finset.sum_congr rfl hstep, Finset.sum_add_distrib]
  have hzero : ∑ k ∈ Finset.range n,
      (PhysicsEngine.forcePass G eps dt n bs k).forceAccumulator.mulScalar dt = 0 := by
    have h := map_sum (mulScalarHom dt)
      (fun k => (PhysicsEngine.forcePass G eps dt n bs k).forceAccumulator) (Finset.range n)
    have h2 : (mulScalarHom dt)
        (∑ k ∈ Finset.range n, (PhysicsEngine.forcePass G eps dt n bs k).forceAccumulator)
          = 0 := by
      rw [forcePass_total_force]
      exact map_zero (mulScalarHom dt)
    rw [h] at h2
    exact h2
  rw [hzero, add_zero]

theorem simUpdate_mass (G eps dt : ℝ) (n : ℕ) (bs : ℕ → Planet) (k : ℕ) :
    (simUpdate G eps dt n bs k).mass = (bs k).mass := by
  have hnd := List.nodup_range n
  simp only [simUpdate, updateOrd, PhysicsEngine.integrateOrd]
  rw [PhysicsEngine.loopOver_apply _ _ hnd]
  have hcf : ∀ m : ℕ, (PhysicsEngine.computeForcesOrd G eps dt (List.range n) n bs m).mass
      = (bs m).mass := by
    intro m
    have h1 : PhysicsEngine.computeForcesOrd G eps dt (List.range n) n bs
        = PhysicsEngine.computeForces G eps dt n bs := rfl
    rw [h1, PhysicsEngine.computeForces, PhysicsEngine.computeForcesOrd]
    rw [PhysicsEngine.velLoop_mass dt hnd]
    exact forcePass_mass G eps dt n bs m
  by_cases h : k ∈ List.range n
  · rw [if_pos h, moveBody_mass]; exact hcf k
  · rw [if_neg h]; exact hcf k

/-- C3: for a body collection with all masses positive (the embedded step
has no collision handling: update is force computation followed by
integration), the total momentum sum of m * v is unchanged by one step and
hence invariant across any number of steps, because every internal force is
applied equal-and-opposite within the same step. -/
theorem iterate_simUpdate_mass (G eps dt : ℝ) (n : ℕ) (bs : ℕ → Planet) (m k : ℕ) :
    ((simUpdate G eps dt n)^[m] bs k).mass = (bs k).mass := by
  induction m with
  | zero => rfl
  | succ j ihj => rw [Function.iterate_succ_apply', simUpdate_mass, ihj]

theorem momentum_invariant (G eps dt : ℝ) (n : ℕ) (bs : ℕ → Planet)
    (hmass : ∀ k, k < n → 0 < (bs k).mass) (m : ℕ) :
    totalMomentum n ((simUpdate G eps dt n)^[m] bs) = totalMomentum n bs := by
  induction m with
  | zero => rfl
  | succ m ih =>
    have hmassm : ∀ k, k < n → ((simUpdate G eps dt n)^[m] bs k).mass ≠ 0 := by
      intro k hk
      rw [iterate_simUpdate_mass]
      exact ne_of_gt (hmass k hk)
    rw [Function.iterate_succ_apply', totalMomentum_step G eps dt n _ hmassm, ih]

/-- Witness for C3 at a concrete input (two unit-mass bodies, three steps). -/
theorem momentum_invariant_witness :
    totalMomentum 2 ((simUpdate 1 0 1 2)^[3] fun _ => samplePlanet)
      = totalMomentum 2 (fun _ => samplePlanet) :=
  momentum_invariant 1 0 1 2 (fun _ => samplePlanet) (fun _ _ => zero_lt_one) 3

/-- Witness for C1 at a concrete input (one body, G = 1, eps = 0, dt = 1). -/
theorem computeForces_pairwise_gravity_witness :
    (PhysicsEngine.computeForces 1 0 1 1 (fun _ => samplePlanet) 0).forceAccumulator
        = (∑ j ∈ Finset.range 1,
            if j = 0 then 0 else PhysicsEngine.pairForce 1 0 samplePlanet samplePlanet)
      ∧ (∀ a b : Planet,
          PhysicsEngine.pairForce 1 0 b a = -(PhysicsEngine.pairForce 1 0 a b))
      ∧ (∀ a b : Planet,
          (b.p - a.p).length * (b.p - a.p).length + 0 * 0 = 0 →
            PhysicsEngine.pairForce 1 0 a b = 0) :=
  computeForces_pairwise_gravity 1 0 1 1 (fun _ => samplePlanet) 0 Nat.one_pos

/-- The Planet operations that modify the trail: a recordPosition call at a
given current position, and clearTrail. -/
inductive TrailOp where
  | record (pos : Vector2)
  | clear

/-- Run one trail-modifying operation. -/
def applyTrailOp (b : Planet) (op : TrailOp) : Planet :=
  match op with
  | TrailOp.record pos => Planet.recordPosition { b with p := pos }
  | TrailOp.clear => b.clearTrail

/-- Run a sequence of trail-modifying operations. -/
def runTrailOps (b : Planet) (ops : List TrailOp) : Planet :=
  ops.foldl applyTrailOp b

/-- N calls to recordPosition, call t recording position f t. -/
def recordCalls (f : ℕ → Vector2) (N : ℕ) (b : Planet) : Planet :=
  (List.range N).foldl (fun s t => Planet.recordPosition { s with p := f t }) b

theorem recordPosition_length_le (b : Planet)
    (hb : b.trail.length ≤ Planet.maxTrailLength) :
    (Planet.recordPosition b).trail.length ≤ Planet.maxTrailLength := by
  simp only [Planet.recordPosition, List.length_append]
  by_cases h : Planet.maxTrailLength ≤ b.trail.length
  · rw [if_pos h]
    simp only [List.length_tail, List.length_cons, List.length_nil]
    simp only [Planet.maxTrailLength] at h hb ⊢
    omega
  · rw [if_neg h]
    simp only [List.length_cons, List.length_nil]
    simp only [Planet.maxTrailLength] at h hb ⊢
    omega

theorem runTrailOps_length_le (ops : List TrailOp) :
    ∀ b : Planet, b.trail.length ≤ Planet.maxTrailLength →
      (runTrailOps b ops).trail.length ≤ Planet.maxTrailLength := by
  induction ops with
  | nil => intro b hb; exact hb
  | cons op ops ih =>
    intro b hb
    have hstep : runTrailOps b (op :: ops) = runTrailOps (applyTrailOp b op) ops := rfl
    rw [hstep]
    apply ih
    cases op with
    | record pos => exact recordPosition_length_le _ hb
    | clear => simp [applyTrailOp, Planet.clearTrail]

theorem recordCalls_trail (f : ℕ → Vector2) (b : Planet) (hb : b.trail = []) :
    ∀ N : ℕ, (recordCalls f N b).trail
      = ((List.range N).map f).drop (N - Planet.maxTrailLength) := by
  intro N
  induction N with
  | zero => simpa [recordCalls]
  | succ N ih =>
    have hstep : recordCalls f (N + 1) b
        = Planet.recordPosition { recordCalls f N b with p := f N } := by
      simp only [recordCalls, List.range_succ N, List.foldl_append, List.foldl_cons,
        List.foldl_nil]
    have hlen : (recordCalls f N b).trail.length = N - (N - Planet.maxTrailLength) := by
      rw [ih]
      simp
    rw [hstep]
    simp only [Planet.recordPosition]
    by_cases h : Planet.maxTrailLength ≤ N
    · have hcap : Planet.maxTrailLength ≤ (recordCalls f N b).trail.length := by omega
      rw [if_pos hcap, ih, List.tail_drop]
      have harith : N - Planet.maxTrailLength + 1 = N + 1 - Planet.maxTrailLength := by omega
      have hone : 1 ≤ Planet.maxTrailLength := by decide
      have hle : N + 1 - Planet.maxTrailLength ≤ ((List.range N).map f).length := by
        simp only [List.length_map, List.length_range]
        omega
      rw [harith, List.range_succ N, List.map_append,
        List.drop_append_of_le_length hle]
      rfl
    · have hcap : ¬ Planet.maxTrailLength ≤ (recordCalls f N b).trail.length := by omega
      rw [if_neg hcap, ih]
      have h1 : N - Planet.maxTrailLength = 0 := by omega
      have h2 : N + 1 - Planet.maxTrailLength = 0 := by omega
      rw [h1, h2, List.range_succ N, List.map_append]
      simp

/-- C7: the trail length never exceeds the 1000-sample cap after any
sequence of trail operations, and after N > 1000 recordPosition calls
starting from an empty trail the length is exactly 1000 and the oldest
retained entry is the position recorded at call N - 1000 (calls numbered
from 0: FIFO, oldest evicted first). -/
theorem trail_fifo_bound (b : Planet) (ops : List TrailOp)
    (hb : b.trail.length ≤ Planet.maxTrailLength)
    (f : ℕ → Vector2) (c : Planet) (hc : c.trail = [])
    (N : ℕ) (hN : Planet.maxTrailLength < N) :
    (runTrailOps b ops).trail.length ≤ Planet.maxTrailLength
    ∧ (recordCalls f N c).trail.length = Planet.maxTrailLength
    ∧ (recordCalls f N c).trail.head? = some (f (N - Planet.maxTrailLength)) := by
  refine ⟨runTrailOps_length_le ops b hb, ?_, ?_⟩
  · rw [recordCalls_trail f c hc N]
    simp only [List.length_drop, List.length_map, List.length_range]
    omega
  · rw [recordCalls_trail f c hc N, List.head?_drop, List.getElem?_map,
      List.getElem?_range
        (by have h1 : 1 ≤ Planet.maxTrailLength := by decide
            omega : N - Planet.maxTrailLength < N)]
    rfl

/-- Witness for C7 at a concrete input (no prior operations, 1001 calls). -/
theorem trail_fifo_bound_witness :
    (runTrailOps samplePlanet []).trail.length ≤ Planet.maxTrailLength
    ∧ (recordCalls (fun _ => 0) 1001 samplePlanet).trail.length = Planet.maxTrailLength
    ∧ (recordCalls (fun _ => 0) 1001 samplePlanet).trail.head?
        = some ((fun _ => (0 : Vector2)) (1001 - Planet.maxTrailLength)) :=
  trail_fifo_bound samplePlanet [] (Nat.zero_le _) (fun _ => 0) samplePlanet rfl 1001
    (by decide)

end

namespace MainLoop

/-- Source main.cpp: maxAccum = 0.25 seconds (accumulator clamp). -/
def maxAccum : ℚ := 1/4

/-- Source main.cpp: maxSubstepsPerFrame = 500. -/
def maxSubstepsPerFrame : ℕ := 500

/-- The while loop of the fixed-step driver: while accumulator >= baseSimDt
and substeps < cap, subtract baseSimDt and count one substep. The fuel
argument is the number of substeps still allowed (cap - substeps). Returns
the final accumulator and the number of substeps executed. -/
def runSubsteps (baseDt : ℚ) : ℕ → ℚ → ℚ × ℕ
  | 0, acc => (acc, 0)
  | fuel + 1, acc =>
    if baseDt ≤ acc then
      ((runSubsteps baseDt fuel (acc - baseDt)).1,
       (runSubsteps baseDt fuel (acc - baseDt)).2 + 1)
    else (acc, 0)

/-- One frame of the fixed-step accumulator block in main.cpp: zero the
accumulator when a restart was triggered; when not paused, add the frame
time, clamp at maxAccum, and run the bounded substep loop. -/
def frameAdvance (acc dt baseDt : ℚ) (restartTriggered paused : Bool) : ℚ × ℕ :=
  let acc0 := if restartTriggered then 0 else acc
  if paused then (acc0, 0)
  else
    let acc1 := acc0 + dt
    let acc2 := if maxAccum < acc1 then maxAccum else acc1
    runSubsteps baseDt maxSubstepsPerFrame acc2

/-- The accumulator value entering the substep loop. -/
def clampedAcc (acc dt : ℚ) (restartTriggered : Bool) : ℚ :=
  min ((if restartTriggered then 0 else acc) + dt) maxAccum

theorem runSubsteps_eq (baseDt : ℚ) (hb : 0 < baseDt) :
    ∀ (fuel : ℕ) (acc : ℚ), 0 ≤ acc →
      runSubsteps baseDt fuel acc
        = (acc - (min ⌊acc / baseDt⌋₊ fuel : ℕ) * baseDt, min ⌊acc / baseDt⌋₊ fuel) := by
  intro fuel
  induction fuel with
  | zero => intro acc _; simp [runSubsteps]
  | succ fuel ih =>
    intro acc ha
    by_cases h : baseDt ≤ acc
    · have ha2 : 0 ≤ acc - baseDt := by linarith
      have hih := ih (acc - baseDt) ha2
      have hdiv : (acc - baseDt) / baseDt = acc / baseDt - 1 := by
        field_simp
      have hfl : ⌊(acc - baseDt) / baseDt⌋₊ = ⌊acc / baseDt⌋₊ - 1 := by
        rw [hdiv]
        simpa using Nat.floor_sub_nat (acc / baseDt) 1
      have hfl1 : 1 ≤ ⌊acc / baseDt⌋₊ :=
        Nat.le_floor (by exact_mod_cast (one_le_div hb).mpr h)
      simp only [runSubsteps, if_pos h, hih, hfl]
      have hmin : min (⌊acc / baseDt⌋₊ - 1) fuel + 1 = min ⌊acc / baseDt⌋₊ (fuel + 1) := by
        omega
      rw [← hmin]
      have hc : acc - baseDt - (min (⌊acc / baseDt⌋₊ - 1) fuel : ℕ) * baseDt
          = acc - ((min (⌊acc / baseDt⌋₊ - 1) fuel + 1 : ℕ) : ℚ) * baseDt := by
        push_cast
        ring
      rw [hc]
    · have hlt : acc < baseDt := not_le.mp h
      have hfl : ⌊acc / baseDt⌋₊ = 0 :=
        Nat.floor_eq_zero.mpr ((div_lt_one hb).mpr hlt)
      simp [runSubsteps, h, hfl]

theorem clamp_eq_min (x : ℚ) : (if maxAccum < x then maxAccum else x) = min x maxAccum := by
  rcases le_or_lt x maxAccum with h | h
  · rw [if_neg (not_lt.mpr h), min_eq_left h]
  · rw [if_pos h, min_eq_right (le_of_lt h)]

/-- C6: in one frame, when not paused, the driver runs the substep loop on
the clamped accumulator (restart zeroes it first, the frame time is added,
then the value is clamped at maxAccum = 0.25 s): it executes
min(floor(acc / baseDt), 500) substeps, subtracting baseDt per substep; when
the 500-substep cap is not hit, the leftover accumulator is below one baseDt
(and it is returned, i.e. preserved for the next frame, never negative and
never above the clamp); when paused, nothing runs and the accumulator is
zeroed exactly when a restart was triggered, else kept unchanged. -/
theorem frame_fixed_step_accumulator (acc dt baseDt : ℚ) (r : Bool)
    (hb : 0 < baseDt) (ha : 0 ≤ acc) (hd : 0 ≤ dt) :
    frameAdvance acc dt baseDt r true = (if r then 0 else acc, 0)
    ∧ frameAdvance acc dt baseDt r false
        = (clampedAcc acc dt r
             - (min ⌊clampedAcc acc dt r / baseDt⌋₊ maxSubstepsPerFrame : ℕ) * baseDt,
           min ⌊clampedAcc acc dt r / baseDt⌋₊ maxSubstepsPerFrame)
    ∧ ((frameAdvance acc dt baseDt r false).2 < maxSubstepsPerFrame →
        (frameAdvance acc dt baseDt r false).1 < baseDt)
    ∧ 0 ≤ (frameAdvance acc dt baseDt r false).1
    ∧ (frameAdvance acc dt baseDt r false).1 ≤ maxAccum := by
  have hacc0 : 0 ≤ (if r then 0 else acc) := by
    cases r <;> simp [ha]
  have hA0 : 0 ≤ clampedAcc acc dt r := by
    unfold clampedAcc maxAccum
    have h1 : 0 ≤ (if r then 0 else acc) + dt := by linarith
    exact le_min h1 (by norm_num)
  have hmain : frameAdvance acc dt baseDt r false
      = runSubsteps baseDt maxSubstepsPerFrame (clampedAcc acc dt r) := by
    unfold frameAdvance clampedAcc
    simp only [Bool.false_eq_true, if_false, clamp_eq_min]
  have hrun := runSubsteps_eq baseDt hb maxSubstepsPerFrame (clampedAcc acc dt r) hA0
  set A := clampedAcc acc dt r with hA
  set F := ⌊A / baseDt⌋₊ with hF
  refine ⟨by simp [frameAdvance], by rw [hmain, hrun], ?_, ?_, ?_⟩
  · intro hcap
    rw [hmain, hrun] at hcap ⊢
    simp only at hcap ⊢
    have hFlt : F < maxSubstepsPerFrame := by omega
    have hminF : min F maxSubstepsPerFrame = F := min_eq_left (le_of_lt hFlt)
    rw [hminF]
    have hlt : A / baseDt < (F : ℚ) + 1 := by
      exact_mod_cast Nat.lt_floor_add_one (A / baseDt)
    have hAlt : A < ((F : ℚ) + 1) * baseDt := (div_lt_iff hb).mp hlt
    push_cast
    linarith
  · rw [hmain, hrun]
    simp only
    have h1 : ((min F maxSubstepsPerFrame : ℕ) : ℚ) ≤ (F : ℚ) := by
      exact_mod_cast Nat.min_le_left F maxSubstepsPerFrame
    have h2 : (F : ℚ) ≤ A / baseDt := Nat.floor_le (div_nonneg hA0 (le_of_lt hb))
    have h3 : (F : ℚ) * baseDt ≤ A := by
      rw [← le_div_iff hb]
      exact h2
    nlinarith
  · rw [hmain, hrun]
    simp only
    have h1 : A ≤ maxAccum := min_le_right _ _
    have h2 : 0 ≤ ((min F maxSubstepsPerFrame : ℕ) : ℚ) * baseDt := by
      positivity
    linarith

/-- Witness for C6 at a concrete input. -/
theorem frame_fixed_step_accumulator_witness :
    frameAdvance 0 1 (1/500) false true = (if false then 0 else 0, 0)
    ∧ frameAdvance 0 1 (1/500) false false
        = (clampedAcc 0 1 false
             - (min ⌊clampedAcc 0 1 false / (1/500)⌋₊ maxSubstepsPerFrame : ℕ) * (1/500),
           min ⌊clampedAcc 0 1 false / (1/500)⌋₊ maxSubstepsPerFrame)
    ∧ ((frameAdvance 0 1 (1/500) false false).2 < maxSubstepsPerFrame →
        (frameAdvance 0 1 (1/500) false false).1 < 1/500)
    ∧ 0 ≤ (frameAdvance 0 1 (1/500) false false).1
    ∧ (frameAdvance 0 1 (1/500) false false).1 ≤ maxAccum :=
  frame_fixed_step_accumulator 0 1 (1/500) false (by norm_num) le_rfl zero_le_one

end MainLoop

noncomputable section

/-- Checked velocity update: Planet::integrateVelocity divides the
accumulated force by the mass with no guard; in the source's float
arithmetic the result is a defined finite value exactly when the divisor is
nonzero, which this variant makes explicit by returning none on a zero
divisor. -/
def integrateVelocityChecked (b : Planet) (dt : ℝ) : Option Planet :=
  if b.mass = 0 then none else some (b.integrateVelocity dt)

/-- A body with mass zero (gravity-only source/sink per the claim). -/
def zeroMassPlanet : Planet := ⟨0, 0, 0, 0, 1, ⟨1, 1, 1⟩, []⟩

/-- Counterexample to C9 as stated: a body with mass 0 satisfies mass >= 0,
yet the velocity update divides by zero (the checked update is undefined). -/
theorem zero_mass_divides_by_zero :
    0 ≤ zeroMassPlanet.mass ∧ integrateVelocityChecked zeroMassPlanet 1 = none :=
  ⟨le_refl 0, by simp [integrateVelocityChecked, zeroMassPlanet]⟩

/-- C9 (amended): for every body with strictly positive mass the velocity
update divides by a nonzero divisor, hence is defined, and one velocity
update gives v + (F/m)*dt leaving the position unchanged; a zero-mass body
makes the unguarded division divide by zero. -/
theorem integrateVelocity_defined (b : Planet) (dt : ℝ) (hm : 0 < b.mass) :
    integrateVelocityChecked b dt = some (b.integrateVelocity dt)
    ∧ (b.integrateVelocity dt).v
        = b.v + (b.forceAccumulator.divScalar b.mass).mulScalar dt
    ∧ (b.integrateVelocity dt).p = b.p := by
  refine ⟨?_, rfl, rfl⟩
  unfold integrateVelocityChecked
  rw [if_neg (ne_of_gt hm)]

/-- Witness for the amended C9 at a concrete input (unit mass). -/
theorem integrateVelocity_defined_witness :
    integrateVelocityChecked samplePlanet 1 = some (samplePlanet.integrateVelocity 1)
    ∧ (samplePlanet.integrateVelocity 1).v
        = samplePlanet.v
          + (samplePlanet.forceAccumulator.divScalar samplePlanet.mass).mulScalar 1
    ∧ (samplePlanet.integrateVelocity 1).p = samplePlanet.p :=
  integrateVelocity_defined samplePlanet 1 zero_lt_one

/-- The simulation state the source keeps: the Simulation's own gravity
parameters G/softening, the PhysicsEngine member's separate G/softening
(both defaulting to 0.05 and 0.02), the fixed timestep, and the bodies. -/
structure SimulationState where
  simG : ℝ
  simSoftening : ℝ
  engineG : ℝ
  engineSoftening : ℝ
  deltaTime : ℝ
  n : ℕ
  bodies : ℕ → Planet

namespace SimulationState

/-- A freshly constructed Simulation with the source's default parameters on
both the Simulation and its PhysicsEngine member. -/
def mk0 (n : ℕ) (bodies : ℕ → Planet) (dt : ℝ) : SimulationState :=
  ⟨0.05, 0.02, 0.05, 0.02, dt, n, bodies⟩

/-- Source Simulation::setGravityParams: G = g; softening = eps. It writes
only the Simulation's own fields and forwards nothing to the PhysicsEngine
member. -/
def setGravityParams (s : SimulationState) (g e : ℝ) : SimulationState :=
  { s with simG := g, simSoftening := e }

/-- Source Simulation::getGravityParams: returns the Simulation's fields. -/
def getGravityParams (s : SimulationState) : ℝ × ℝ := (s.simG, s.simSoftening)

/-- Source Simulation::update: physics.computeForces(deltaTime);
physics.integrate(deltaTime) — the engine computes with its own G and
softening members. -/
def update (s : SimulationState) : SimulationState :=
  { s with bodies := simUpdate s.engineG s.engineSoftening s.deltaTime s.n s.bodies }

end SimulationState

/-- The two-body configuration exhibiting the C8 divergence: unit masses at
(0,0) and (1,0). -/
def bugBodies : ℕ → Planet :=
  fun k => if k = 0 then ⟨⟨0, 0⟩, 0, 0, 1, 1, ⟨1, 1, 1⟩, []⟩
           else ⟨⟨1, 0⟩, 0, 0, 1, 1, ⟨1, 1, 1⟩, []⟩

theorem moveLoop_force (dt : ℝ) {L : List ℕ} (hL : L.Nodup) (bs : ℕ → Planet) (k : ℕ) :
    (PhysicsEngine.integrateOrd dt L bs k).forceAccumulator = (bs k).forceAccumulator := by
  unfold PhysicsEngine.integrateOrd
  rw [PhysicsEngine.loopOver_apply _ _ hL]
  by_cases h : k ∈ L <;> simp [h, PhysicsEngine.moveBody, Planet.recordPosition]

/-- C8 evaluated on the code at the failing input: after
setGravityParams(1, 0), getGravityParams returns (1, 0), but update()
computes the force on body 0 with the PhysicsEngine's own default
parameters G = 0.05, softening = 0.02 — giving x-component
0.05 / (1 + 0.02 * 0.02), which differs from the claimed value
1 * 1 * 1 / (1 + 0 * 0) = 1 that the configured parameters would give. -/
theorem setGravityParams_not_consumed :
    ((SimulationState.mk0 2 bugBodies 1).setGravityParams 1 0).getGravityParams = (1, 0)
    ∧ ((((SimulationState.mk0 2 bugBodies 1).setGravityParams 1 0).update).bodies 0).forceAccumulator
        = ⟨0.05 / (1 + 0.02 * 0.02), 0⟩
    ∧ (0.05 / (1 + 0.02 * 0.02) : ℝ) ≠ 1 * 1 * 1 / (1 + 0 * 0) := by
  refine ⟨rfl, ?_, by norm_num⟩
  have h1 : (((SimulationState.mk0 2 bugBodies 1).setGravityParams 1 0).update).bodies
      = simUpdate 0.05 0.02 1 2 bugBodies := rfl
  rw [h1]
  have h2 : (simUpdate 0.05 0.02 1 2 bugBodies 0).forceAccumulator
      = (PhysicsEngine.computeForces 0.05 0.02 1 2 bugBodies 0).forceAccumulator := by
    simp only [simUpdate, updateOrd]
    exact moveLoop_force 1 (List.nodup_range 2) _ 0
  rw [h2, PhysicsEngine.computeForces_net_force 0.05 0.02 1 2 bugBodies (by decide)]
  have hr : (bugBodies 1).p - (bugBodies 0).p = ⟨1, 0⟩ := by
    ext <;> simp [bugBodies]
  have hlen : (Vector2.mk 1 0).length = 1 := by
    unfold Vector2.length
    norm_num
  have hnorm : (Vector2.mk 1 0).normalized = ⟨1, 0⟩ := by
    unfold Vector2.normalized
    rw [hlen, if_neg one_ne_zero]
    ext <;> simp [Vector2.divScalar]
  have hm0 : (bugBodies 0).mass = 1 := rfl
  have hm1 : (bugBodies 1).mass = 1 := rfl
  have hpf : PhysicsEngine.pairForce 0.05 0.02 (bugBodies 0) (bugBodies 1)
      = ⟨0.05 / (1 + 0.02 * 0.02), 0⟩ := by
    simp only [PhysicsEngine.pairForce, hr, hlen, hnorm, hm0, hm1]
    rw [if_neg (by norm_num : (1:ℝ) * 1 + 0.02 * 0.02 ≠ 0)]
    ext <;> simp [Vector2.mulScalar] <;> norm_num
  have hsum : ∑ j ∈ Finset.range 2,
      (if j = 0 then 0 else PhysicsEngine.pairForce 0.05 0.02 (bugBodies 0) (bugBodies j))
        = PhysicsEngine.pairForce 0.05 0.02 (bugBodies 0) (bugBodies 1) := by
    rw [Finset.sum_range_succ, Finset.sum_range_succ, Finset.range_zero, Finset.sum_empty]
    simp
  rw [hsum, hpf]

end

noncomputable section

namespace Collision

/-!
Modelled from the spec: Simulation::handleCollisions is declared in
src/include/planets/Simulation.hpp but its body is not under src/; the
definitions below follow the spec's collision-resolver description
(Policy A impulse bounce and Policy B merge-on-low-relative-velocity).
-/

/-- Modelled from the spec: the collision normal, from one body's center to
the other's, with a fixed nominal axis substituted when the separation is
zero. -/
def collisionNormal (a b : Planet) : Vector2 :=
  let d := b.p - a.p
  if d.length = 0 then ⟨1, 0⟩ else d.normalized

/-- Modelled from the spec: inverse mass, zero (immovable) for a
non-positive mass. -/
def invMass (m : ℝ) : ℝ := if 0 < m then 1 / m else 0

/-- Modelled from the spec: relative velocity along the collision normal. -/
def velAlongNormal (a b : Planet) : ℝ :=
  Vector2.dot (b.v - a.v) (collisionNormal a b)

/-- Modelled from the spec: impulse magnitude from the restitution
coefficient and the inverse masses. -/
def impulseMag (e : ℝ) (a b : Planet) : ℝ :=
  (-(1 + e) * velAlongNormal a b) / (invMass a.mass + invMass b.mass)

/-- Modelled from the spec (Policy A): skip when the bodies are already
separating; guard the division when both bodies are immovable; otherwise
apply the impulse equal-and-opposite, each body's velocity change scaled by
its inverse mass. -/
def resolveImpulse (e : ℝ) (a b : Planet) : Planet × Planet :=
  if 0 ≤ velAlongNormal a b then (a, b)
  else if invMass a.mass + invMass b.mass = 0 then (a, b)
  else
    let n := collisionNormal a b
    let j := impulseMag e a b
    ({ a with v := a.v - n.mulScalar (j * invMass a.mass) },
     { b with v := b.v + n.mulScalar (j * invMass b.mass) })

/-- Modelled from the spec: bodies collide when the center distance is at
most the sum of the radii. -/
def colliding (a b : Planet) : Prop := (b.p - a.p).length ≤ a.radius + b.radius

instance (a b : Planet) : Decidable (colliding a b) := by
  unfold colliding
  infer_instance

/-- Modelled from the spec: relative speed at impact. -/
def relSpeed (a b : Planet) : ℝ := (b.v - a.v).length

/-- Modelled from the spec (Policy B): merged body with summed mass,
momentum-weighted velocity, center-of-mass position, volume-conserving
radius, mass-weighted blended color. -/
def mergeBodies (a b : Planet) : Planet :=
  let m := a.mass + b.mass
  { p := (a.p.mulScalar a.mass + b.p.mulScalar b.mass).divScalar m,
    v := (a.v.mulScalar a.mass + b.v.mulScalar b.mass).divScalar m,
    forceAccumulator := 0,
    mass := m,
    radius := (a.radius ^ 3 + b.radius ^ 3) ^ ((1:ℝ)/3),
    color := ((a.color.1 * a.mass + b.color.1 * b.mass) / m,
              (a.color.2.1 * a.mass + b.color.2.1 * b.mass) / m,
              (a.color.2.2 * a.mass + b.color.2.2 * b.mass) / m),
    trail := a.trail }

/-- Modelled from the spec: one inner iteration of the merge pass on pair
q = (i, j): skip pairs touching an already-absorbed body; merge into the
surviving index i and mark j for removal when the relative speed is below
the threshold; fall back to the impulse response for faster pairs. -/
def mergeStep (e thresh : ℝ) (s : List Planet × List ℕ) (q : ℕ × ℕ) :
    List Planet × List ℕ :=
  if q.1 ∈ s.2 ∨ q.2 ∈ s.2 then s
  else
    let a := s.1.getD q.1 zeroMassPlanet
    let b := s.1.getD q.2 zeroMassPlanet
    if colliding a b ∧ relSpeed a b < thresh then
      (s.1.set q.1 (mergeBodies a b), q.2 :: s.2)
    else if colliding a b then
      ((s.1.set q.1 (resolveImpulse e a b).1).set q.2 (resolveImpulse e a b).2, s.2)
    else s

/-- Modelled from the spec: the merge collision pass: process every pair,
collecting the absorbed indices, and only after the full pass remove the
absorbed bodies from the collection. -/
def handleCollisionsMerge (e thresh : ℝ) (bs : List Planet) : List Planet :=
  let r := (PhysicsEngine.pairList bs.length).foldl (mergeStep e thresh) (bs, [])
  (List.range r.1.length).filterMap fun k =>
    if k ∈ r.2 then none else some (r.1.getD k zeroMassPlanet)

theorem dot_add_left (u w n : Vector2) :
    Vector2.dot (u + w) n = Vector2.dot u n + Vector2.dot w n := by
  simp [Vector2.dot]
  ring

theorem dot_mulScalar_left (u : Vector2) (s : ℝ) (n : Vector2) :
    Vector2.dot (u.mulScalar s) n = s * Vector2.dot u n := by
  simp [Vector2.dot]
  ring

theorem collisionNormal_dot_self (a b : Planet) :
    Vector2.dot (collisionNormal a b) (collisionNormal a b) = 1 := by
  unfold collisionNormal
  by_cases h : (b.p - a.p).length = 0
  · rw [if_pos h]
    simp [Vector2.dot]
  · rw [if_neg h]
    unfold Vector2.normalized
    rw [if_neg h]
    have hsq := Vector2.mul_self_length (b.p - a.p)
    simp only [Vector2.sub_x, Vector2.sub_y] at hsq
    simp only [Vector2.dot, Vector2.divScalar_x, Vector2.divScalar_y, Vector2.sub_x,
      Vector2.sub_y]
    field_simp
    linarith [hsq]

theorem invMass_nonneg (m : ℝ) : 0 ≤ invMass m := by
  unfold invMass
  by_cases h : 0 < m
  · rw [if_pos h]
    positivity
  · rw [if_neg h]

theorem invMass_pos {m : ℝ} (h : 0 < m) : 0 < invMass m := by
  unfold invMass
  rw [if_pos h]
  positivity

end Collision

end

noncomputable section

/-- C5 (spec-modelled, Policy A): for a colliding pair with restitution
e in [0,1] and at least one movable body: when the bodies are already
separating (relative normal velocity >= 0) no impulse is applied; otherwise
the impulse is applied equal-and-opposite with each body's velocity change
scaled by its inverse mass, and after resolution the relative velocity
along the normal is -e times the incoming one, hence >= 0: the bodies are
not moving further into each other. -/
theorem impulse_bounce_resolution (e : ℝ) (a b : Planet)
    (he0 : 0 ≤ e) (he1 : e ≤ 1) (hm : 0 < a.mass ∨ 0 < b.mass) :
    (0 ≤ Collision.velAlongNormal a b → Collision.resolveImpulse e a b = (a, b))
    ∧ (Collision.velAlongNormal a b < 0 →
        (Collision.resolveImpulse e a b).1.v
            = a.v - (Collision.collisionNormal a b).mulScalar
                (Collision.impulseMag e a b * Collision.invMass a.mass)
        ∧ (Collision.resolveImpulse e a b).2.v
            = b.v + (Collision.collisionNormal a b).mulScalar
                (Collision.impulseMag e a b * Collision.invMass b.mass)
        ∧ Collision.velAlongNormal (Collision.resolveImpulse e a b).1
            (Collision.resolveImpulse e a b).2 = -e * Collision.velAlongNormal a b
        ∧ 0 ≤ Collision.velAlongNormal (Collision.resolveImpulse e a b).1
            (Collision.resolveImpulse e a b).2) := by
  have hsum : Collision.invMass a.mass + Collision.invMass b.mass ≠ 0 := by
    rcases hm with h | h
    · have h1 := Collision.invMass_pos h
      have h2 := Collision.invMass_nonneg b.mass
      linarith
    · have h1 := Collision.invMass_pos h
      have h2 := Collision.invMass_nonneg a.mass
      linarith
  constructor
  · intro h
    unfold Collision.resolveImpulse
    rw [if_pos h]
  · intro hneg
    set n := Collision.collisionNormal a b with hn
    set j := Collision.impulseMag e a b with hj0
    have hr1 : (Collision.resolveImpulse e a b).1
        = { a with v := a.v - n.mulScalar (j * Collision.invMass a.mass) } := by
      unfold Collision.resolveImpulse
      rw [if_neg (not_le.mpr hneg), if_neg hsum]
    have hr2 : (Collision.resolveImpulse e a b).2
        = { b with v := b.v + n.mulScalar (j * Collision.invMass b.mass) } := by
      unfold Collision.resolveImpulse
      rw [if_neg (not_le.mpr hneg), if_neg hsum]
    have hnormal : Collision.collisionNormal (Collision.resolveImpulse e a b).1
        (Collision.resolveImpulse e a b).2 = Collision.collisionNormal a b := by
      unfold Collision.collisionNormal
      rw [hr1, hr2]
    have hdv : (Collision.resolveImpulse e a b).2.v - (Collision.resolveImpulse e a b).1.v
        = (b.v - a.v)
          + n.mulScalar (j * (Collision.invMass a.mass + Collision.invMass b.mass)) := by
      rw [hr1, hr2]
      ext <;> simp [Vector2.mulScalar] <;> ring
    have hthird : Collision.velAlongNormal (Collision.resolveImpulse e a b).1
        (Collision.resolveImpulse e a b).2 = -e * Collision.velAlongNormal a b := by
      unfold Collision.velAlongNormal
      rw [hnormal, hdv, Collision.dot_add_left, Collision.dot_mulScalar_left,
        Collision.collisionNormal_dot_self]
      have hjmul : j * (Collision.invMass a.mass + Collision.invMass b.mass)
          = -(1 + e) * Collision.velAlongNormal a b := by
        rw [hj0]
        unfold Collision.impulseMag
        field_simp
      rw [mul_one, hjmul]
      unfold Collision.velAlongNormal
      ring
    refine ⟨by rw [hr1], by rw [hr2], hthird, ?_⟩
    rw [hthird]
    nlinarith [mul_nonneg he0 (by linarith : (0:ℝ) ≤ -(Collision.velAlongNormal a b))]

/-- Witness for C5 at a concrete input (two identical unit-mass bodies,
restitution 0). -/
theorem impulse_bounce_resolution_witness :
    (0 ≤ Collision.velAlongNormal samplePlanet samplePlanet →
        Collision.resolveImpulse 0 samplePlanet samplePlanet = (samplePlanet, samplePlanet))
    ∧ (Collision.velAlongNormal samplePlanet samplePlanet < 0 →
        (Collision.resolveImpulse 0 samplePlanet samplePlanet).1.v
            = samplePlanet.v - (Collision.collisionNormal samplePlanet samplePlanet).mulScalar
                (Collision.impulseMag 0 samplePlanet samplePlanet
                  * Collision.invMass samplePlanet.mass)
        ∧ (Collision.resolveImpulse 0 samplePlanet samplePlanet).2.v
            = samplePlanet.v + (Collision.collisionNormal samplePlanet samplePlanet).mulScalar
                (Collision.impulseMag 0 samplePlanet samplePlanet
                  * Collision.invMass samplePlanet.mass)
        ∧ Collision.velAlongNormal (Collision.resolveImpulse 0 samplePlanet samplePlanet).1
            (Collision.resolveImpulse 0 samplePlanet samplePlanet).2
              = -0 * Collision.velAlongNormal samplePlanet samplePlanet
        ∧ 0 ≤ Collision.velAlongNormal (Collision.resolveImpulse 0 samplePlanet samplePlanet).1
            (Collision.resolveImpulse 0 samplePlanet samplePlanet).2) :=
  impulse_bounce_resolution 0 samplePlanet samplePlanet (le_refl 0) zero_le_one
    (Or.inl zero_lt_one)

/-- C4 (spec-modelled, Policy B): a colliding pair below the merge threshold
is replaced by the single merged body: mass is exactly the sum, velocity is
the momentum-weighted average, position the mass-weighted center of mass,
and the cubed radius is the sum of the cubed radii (volume conserved); the
absorbed index is only erased after the full collision pass
(handleCollisionsMerge collects removals during the pass and filters at the
end). -/
theorem merge_policy_conserves (e thresh : ℝ) (a b : Planet)
    (hma : 0 < a.mass) (hmb : 0 < b.mass) (hra : 0 ≤ a.radius) (hrb : 0 ≤ b.radius)
    (hcol : Collision.colliding a b) (hrel : Collision.relSpeed a b < thresh) :
    Collision.handleCollisionsMerge e thresh [a, b] = [Collision.mergeBodies a b]
    ∧ (Collision.mergeBodies a b).mass = a.mass + b.mass
    ∧ (Collision.mergeBodies a b).v.mulScalar (Collision.mergeBodies a b).mass
        = a.v.mulScalar a.mass + b.v.mulScalar b.mass
    ∧ (Collision.mergeBodies a b).p.mulScalar (Collision.mergeBodies a b).mass
        = a.p.mulScalar a.mass + b.p.mulScalar b.mass
    ∧ (Collision.mergeBodies a b).radius ^ 3 = a.radius ^ 3 + b.radius ^ 3 := by
  have hmne : a.mass + b.mass ≠ 0 := by positivity
  refine ⟨?_, rfl, ?_, ?_, ?_⟩
  · have h1 : (PhysicsEngine.pairList ([a, b] : List Planet).length).foldl
        (Collision.mergeStep e thresh) ([a, b], [])
          = (([a, b] : List Planet).set 0 (Collision.mergeBodies a b), [1]) := by
      show Collision.mergeStep e thresh ([a, b], []) (0, 1)
          = (([a, b] : List Planet).set 0 (Collision.mergeBodies a b), [1])
      simp only [Collision.mergeStep]
      rw [if_neg (by simp : ¬((0, 1).1 ∈ ([] : List ℕ) ∨ (0, 1).2 ∈ ([] : List ℕ)))]
      have hga : ([a, b] : List Planet).getD (0, 1).1 zeroMassPlanet = a := rfl
      have hgb : ([a, b] : List Planet).getD (0, 1).2 zeroMassPlanet = b := rfl
      rw [hga, hgb, if_pos ⟨hcol, hrel⟩]
    unfold Collision.handleCollisionsMerge
    rw [h1]
    rfl
  · simp only [Collision.mergeBodies]
    ext <;> simp [Vector2.mulScalar, Vector2.divScalar] <;> field_simp <;> ring
  · simp only [Collision.mergeBodies]
    ext <;> simp [Vector2.mulScalar, Vector2.divScalar] <;> field_simp <;> ring
  · show ((a.radius ^ 3 + b.radius ^ 3) ^ ((1:ℝ)/3)) ^ (3:ℕ) = a.radius ^ 3 + b.radius ^ 3
    have hx : (0:ℝ) ≤ a.radius ^ 3 + b.radius ^ 3 := by positivity
    rw [← Real.rpow_natCast ((a.radius ^ 3 + b.radius ^ 3) ^ ((1:ℝ)/3)) 3,
      ← Real.rpow_mul hx]
    norm_num

/-- Witness for C4 at a concrete input (two coincident unit bodies with
zero relative speed, threshold 1). -/
theorem merge_policy_conserves_witness :
    Collision.handleCollisionsMerge 0 1 [samplePlanet, samplePlanet]
        = [Collision.mergeBodies samplePlanet samplePlanet]
    ∧ (Collision.mergeBodies samplePlanet samplePlanet).mass
        = samplePlanet.mass + samplePlanet.mass
    ∧ (Collision.mergeBodies samplePlanet samplePlanet).v.mulScalar
        (Collision.mergeBodies samplePlanet samplePlanet).mass
          = samplePlanet.v.mulScalar samplePlanet.mass
            + samplePlanet.v.mulScalar samplePlanet.mass
    ∧ (Collision.mergeBodies samplePlanet samplePlanet).p.mulScalar
        (Collision.mergeBodies samplePlanet samplePlanet).mass
          = samplePlanet.p.mulScalar samplePlanet.mass
            + samplePlanet.p.mulScalar samplePlanet.mass
    ∧ (Collision.mergeBodies samplePlanet samplePlanet).radius ^ 3
        = samplePlanet.radius ^ 3 + samplePlanet.radius ^ 3 :=
  merge_policy_conserves 0 1 samplePlanet samplePlanet zero_lt_one zero_lt_one
    zero_le_one zero_le_one
    (by unfold Collision.colliding
        have h0 : (samplePlanet.p - samplePlanet.p).length = 0 := by
          simp [Vector2.length, samplePlanet]
        rw [h0]
        norm_num [samplePlanet])
    (by unfold Collision.relSpeed
        have h0 : (samplePlanet.v - samplePlanet.v).length = 0 := by
          simp [Vector2.length, samplePlanet]
        rw [h0]
        norm_num)

end

/-- Modelled from the spec: Simulation::initRandom's body is not under src/
(only its declaration and callers are); the spec says N bodies are drawn
from a seeded random distribution for positions, velocities, masses, radii
and colors. A linear congruential generator stands in for the seeded
engine. -/
def lcg (s : ℕ) : ℕ := (1664525 * s + 1013904223) % 4294967296

noncomputable section

/-- Modelled from the spec: the i-th draw of the seeded stream, as a real
number in [0, 1). -/
def draw (seed i : ℕ) : ℝ := ((lcg^[i + 1] seed : ℕ) : ℝ) / 4294967296

/-- Modelled from the spec: Simulation::initRandom builds the k-th of N
bodies deterministically from the draws of the seeded stream (positions,
velocities, masses, radii; indices at or beyond N hold an inert default
body). -/
def initRandom (N seed : ℕ) : ℕ → Planet :=
  fun k =>
    if k < N then
      { p := ⟨draw seed (6 * k), draw seed (6 * k + 1)⟩,
        v := ⟨draw seed (6 * k + 2) - 1/2, draw seed (6 * k + 3) - 1/2⟩,
        forceAccumulator := 0,
        mass := draw seed (6 * k + 4) + 1/2,
        radius := draw seed (6 * k + 5) / 10 + 1/100,
        color := (1, 1, 1),
        trail := [] }
    else samplePlanet

/-- Modelled from the spec: a run of the simulation as a step relation:
initRandom with the given body count and seed, then k fixed steps (force
computation + integration; collision policy none). -/
inductive RunRel (G eps dt : ℝ) (N seed : ℕ) : ℕ → (ℕ → Planet) → Prop where
  | init : RunRel G eps dt N seed 0 (initRandom N seed)
  | step {k : ℕ} {st : ℕ → Planet} :
      RunRel G eps dt N seed k st →
      RunRel G eps dt N seed (k + 1) (simUpdate G eps dt N st)

/-- C10: the run relation is deterministic: two runs with the same seed,
body count and executed step count reach the same state, hence identical
positions and velocities for every body — initRandom and the step are
deterministic functions of their inputs. -/
theorem run_deterministic (G eps dt : ℝ) (N seed k : ℕ) (st st2 : ℕ → Planet)
    (h1 : RunRel G eps dt N seed k st) (h2 : RunRel G eps dt N seed k st2) :
    st = st2 ∧ ∀ i, (st i).p = (st2 i).p ∧ (st i).v = (st2 i).v := by
  have hdet : st = st2 := by
    induction h1 generalizing st2 with
    | init =>
      cases h2 with
      | init => rfl
    | step h ih =>
      cases h2 with
      | step h2tail => rw [ih _ h2tail]
  exact ⟨hdet, fun i => by rw [hdet]; exact ⟨rfl, rfl⟩⟩

/-- Witness for C10 at a concrete input (seed 1337, two bodies, zero
steps). -/
theorem run_deterministic_witness :
    initRandom 2 1337 = initRandom 2 1337
    ∧ ∀ i, ((initRandom 2 1337) i).p = ((initRandom 2 1337) i).p
        ∧ ((initRandom 2 1337) i).v = ((initRandom 2 1337) i).v :=
  run_deterministic 1 0 1 2 1337 0 (initRandom 2 1337) (initRandom 2 1337)
    RunRel.init RunRel.init

end
